import Mathlib

/-!
Shallow embedding of the `grammar_checker` repository (files `markov.py`,
`ngrams.py`, `utils.py`) and verification of its specification claims.

Python dictionaries are modelled as association lists (`Dict`) that keep
insertion order: `d[k] += 1` updates the first matching entry in place,
`d[k] = v` on a missing key appends at the end, exactly as Python dicts do.
Numeric values are modelled as rationals (`ℚ`); Python exceptions that
escape a function are modelled with `Except String`.
-/

deriving instance DecidableEq for Except

/-- Association list standing for a Python `dict` with string keys. -/
abbrev Dict (α : Type) := List (String × α)

/-- Python `d[k]` as a total lookup: the value of the first entry whose key
is `k`, if any. -/
def dfind? {α : Type} (d : Dict α) (k : String) : Option α :=
  (d.find? fun e => e.1 == k).map fun e => e.2

/-- Python `d[k] = v` when we know how dicts behave: replace the first
entry with key `k` in place, otherwise append a fresh entry at the end. -/
def dset {α : Type} (d : Dict α) (k : String) (v : α) : Dict α :=
  match d with
  | [] => [(k, v)]
  | e :: rest => if e.1 = k then (k, v) :: rest else e :: dset rest k v

/-- The `try: d[k] += 1 except KeyError: d[k] = 1` idiom used by both model
classes to bump a counter. -/
def dincr (d : Dict ℚ) (k : String) : Dict ℚ :=
  match dfind? d k with
  | some v => dset d k (v + 1)
  | none => d ++ [(k, 1)]

/-- `sum(d.values())`. -/
def sumV (d : Dict ℚ) : ℚ :=
  (d.map fun e => e.2).sum

/-- `{k: v / sum(d.values()) for k, v in d.items()}` — one normalization
pass over a dictionary. -/
def normRow (d : Dict ℚ) : Dict ℚ :=
  d.map fun e => (e.1, e.2 / sumV d)

/-- Python `str.split(sep)` on character lists, for a non-empty separator:
greedy left-to-right scan, empty parts kept. -/
def splitTok (sep : List Char) : List Char → List (List Char)
  | [] => [[]]
  | c :: cs =>
    if h : sep ≠ [] ∧ sep.isPrefixOf (c :: cs) then
      [] :: splitTok sep (List.drop sep.length (c :: cs))
    else
      match splitTok sep cs with
      | [] => [[c]]
      | t :: ts => (c :: t) :: ts
termination_by l => l.length
decreasing_by
  · simp only [List.length_drop, List.length_cons]
    have hs : 0 < sep.length := List.length_pos.mpr h.1
    omega
  · simp only [List.length_cons]
    omega

/-- Python `s.split(sep)` on strings. -/
def pySplit (s sep : String) : List String :=
  (splitTok sep.data s.data).map fun l => String.mk l

/-- `'**'.join(l)`. -/
def starsJoin (l : List String) : String :=
  String.intercalate "**" l

/-- `' '.join(l)`. -/
def spaceJoin (l : List String) : String :=
  String.intercalate " " l

/-- `MarkovChain.update_prvs`: drop the oldest component of the delimited
state string and append the new one. -/
def update_prvs (prvs new delim : String) : String :=
  String.intercalate delim ((pySplit prvs delim).drop 1 ++ [new])

/-- The sliding-state update shared by fit and predict in `markov.py`:
`update_prvs` for order > 1, plain replacement for order 1 (and 0). -/
def nextP (order : Nat) (prvs p : String) : String :=
  if order > 1 then update_prvs prvs p "**" else p

/-- The word-window update used by `MarkovChain.predict_transition`. -/
def nextW (order : Nat) (prvs_w w : String) : String :=
  if order > 1 then update_prvs prvs_w w " " else w

/-- `np.array(l).argmin()`: index of the first occurrence of the minimum. -/
def argminIdx : List ℚ → Nat
  | [] => 0
  | x :: xs =>
    match xs with
    | [] => 0
    | _ :: _ =>
      let j := argminIdx xs
      if xs.getD j 0 < x then j + 1 else 0

/-- State of a `MarkovChain` instance (`markov.py`).  `pr` models the
`self.pr` attribute, which `__init__` does not create (`none`) and
`predict_init_vector` later assigns. -/
structure MarkovChain where
  order : Nat
  transition : Dict (Dict ℚ)
  init_vector : Dict ℚ
  normalized_init : Bool
  normalized_transition : Bool
  pr : Option (List ℚ)
deriving DecidableEq, Repr

/-- `MarkovChain.__init__(order)`. -/
def MarkovChain.new (order : Nat) : MarkovChain :=
  { order := order
    transition := []
    init_vector := []
    normalized_init := false
    normalized_transition := false
    pr := none }

/-- `MarkovChain.update_transition`'s table update: bump
`transition[prvs][p]`, creating the row or the cell as needed. -/
def updT (t : Dict (Dict ℚ)) (prvs p : String) : Dict (Dict ℚ) :=
  match dfind? t prvs with
  | some row => dset t prvs (dincr row p)
  | none => t ++ [(prvs, [(p, 1)])]

/-- The inner loop of `MarkovChain.fit`: walk the truncated sentence,
updating the transition counts and sliding the state forward. -/
def fitLoop : MarkovChain → List (String × String) → String → MarkovChain
  | m, [], _ => m
  | m, (_, p) :: rest, prvs =>
    fitLoop { m with transition := updT m.transition prvs p } rest (nextP m.order prvs p)

/-- One iteration of `MarkovChain.fit`'s sentence loop: sentences of
length ≤ order+1 are skipped; otherwise `update_init_vector` consumes the
first `order` tokens and the rest feed `update_transition`. -/
def MarkovChain.fitSentence (m : MarkovChain) (s : List (String × String)) : MarkovChain :=
  if s.length > m.order + 1 then
    let p0 := starsJoin ((s.take m.order).map fun e => e.2)
    fitLoop { m with init_vector := dincr m.init_vector p0 } (s.drop m.order) p0
  else m

/-- `MarkovChain.normalize_transition_matrix`.  The guard tests
`self.normalized_transition`, which nothing ever sets; in the `else`
branch the Python code builds an `AttributeError` but never raises it, so
that branch is a silent no-op. -/
def MarkovChain.normalize_transition_matrix (m : MarkovChain) : MarkovChain :=
  if m.normalized_transition = false then
    { m with transition := m.transition.map fun e => (e.1, normRow e.2) }
  else m

/-- `MarkovChain.normalize_init_vector`.  Note that the guard also tests
`normalized_transition` (not `normalized_init`), exactly as the source
does, and the `else` branch likewise discards its `AttributeError`. -/
def MarkovChain.normalize_init_vector (m : MarkovChain) : MarkovChain :=
  if m.normalized_transition = false then
    { m with init_vector := normRow m.init_vector }
  else m

/-- `MarkovChain.fit`: count pass over every sentence, then normalize the
initial vector and the transition matrix. -/
def MarkovChain.fit (m : MarkovChain) (pos : List (List (String × String))) : MarkovChain :=
  ((pos.foldl MarkovChain.fitSentence m).normalize_init_vector).normalize_transition_matrix

/-- The loop of `MarkovChain.predict_proba` over the truncated sequence:
each step appends `transition[prvs][p]` (0 on a missing row or cell, the
`except KeyError` branch) to `pr` and the slid word window to `words`. -/
def predictLoop (m : MarkovChain) :
    List (String × String) → String → String → List ℚ → List String → List ℚ × List String
  | [], _, _, pr, words => (pr, words)
  | (w, p) :: rest, prvs, prvs_w, pr, words =>
    let score := ((dfind? m.transition prvs).bind fun row => dfind? row p).getD 0
    predictLoop m rest (nextP m.order prvs p) (nextW m.order prvs_w w)
      (pr ++ [score]) (words ++ [nextW m.order prvs_w w])

/-- `MarkovChain.predict_proba`.  For a long-enough input it mirrors
`predict_init_vector` followed by the `predict_transition` loop and the
`argmin` extraction; for a short input the loop body never runs and the
method returns `self.pr`, raising `AttributeError` when that attribute was
never created. -/
def MarkovChain.predict_proba (m : MarkovChain) (pos : List (String × String)) :
    Except String (List ℚ × List String) :=
  if pos.length > m.order + 1 then
    let p0 := starsJoin ((pos.take m.order).map fun e => e.2)
    let w0 := spaceJoin ((pos.take m.order).map fun e => e.1)
    let res := predictLoop m (pos.drop m.order) p0 w0
      [(dfind? m.init_vector p0).getD 0] [w0]
    .ok (res.1, [res.2.getD (argminIdx res.1) ""])
  else
    match m.pr with
    | some pr => .ok (pr, [])
    | none => .error "AttributeError: MarkovChain object has no attribute pr"

/-- `NGrams.x_y(key)`: recombine the first and third `'**'`-separated
components of a joint key (`key.split('**')[0] + '**' + key.split('**')[2]`). -/
def xyOf (k : String) : String :=
  (pySplit k "**").getD 0 "" ++ "**" ++ (pySplit k "**").getD 2 ""

/-- The middle component `key.split('**')[1]` of a joint key. -/
def midOf (k : String) : String :=
  (pySplit k "**").getD 1 ""

/-- The accumulation pattern shared by `calc_p_z`, `calc_p_x_y` and the
inner loop of `calc_p_z_given_x_y`: initialise a bucket per distinct
projection `f key` of the table's keys, then add every count to its
bucket.  The resulting content maps each projection value to the sum of
the counts of the entries projecting to it. -/
def fibers (f : String → String) (t : Dict ℚ) : Dict ℚ :=
  ((t.map fun e => f e.1).dedup).map fun k =>
    (k, sumV (t.filter fun e => decide (f e.1 = k)))

/-- State of an `NGrams` instance (`ngrams.py`).  The three derived tables
are attributes that `__init__` never creates (`none`); only
`normalize_transition_matrix` assigns them. -/
structure NGrams where
  order : Nat
  transition : Dict ℚ
  init_vector : Dict ℚ
  normalized_init : Bool
  normalized_transition : Bool
  p_z : Option (Dict ℚ)
  p_x_y : Option (Dict ℚ)
  p_z_given_x_y : Option (Dict (Dict ℚ))
deriving DecidableEq, Repr

/-- `NGrams.__init__(order)`. -/
def NGrams.new (order : Nat) : NGrams :=
  { order := order
    transition := []
    init_vector := []
    normalized_init := false
    normalized_transition := false
    p_z := none
    p_x_y := none
    p_z_given_x_y := none }

/-- One iteration of `NGrams.fit`'s sentence loop: for every interior
position of a long-enough sentence, bump the joint count for
`prvs**p**nxt` (`update_transition`) and the centre-tag count
(`update_init_vector`). -/
def NGrams.fitSentence (m : NGrams) (s : List (String × String)) : NGrams :=
  if s.length > m.order + 1 then
    (List.range s.length).foldl
      (fun m ix =>
        if ix = 0 ∨ ix = s.length - 1 then m
        else
          let p := (s.getD ix ("", "")).2
          let prvs := (s.getD (ix - 1) ("", "")).2
          let nxt := (s.getD (ix + 1) ("", "")).2
          { m with
              transition := dincr m.transition (starsJoin [prvs, p, nxt])
              init_vector := dincr m.init_vector p })
      m
  else m

/-- `NGrams.fit`.  The trailing calls to `normalize_init_vector` and
`normalize_transition_matrix` are commented out in the source, so fitting
performs no normalization and creates none of the derived tables. -/
def NGrams.fit (m : NGrams) (pos : List (List (String × String))) : NGrams :=
  pos.foldl NGrams.fitSentence m

/-- `NGrams.normalize_transition_matrix`: under the (never-set)
`normalized_transition` guard, compute `p_z`, `p_x_y` and `p_z_given_x_y`
from the raw joint counts, then divide the joint table and the two
marginals by the grand total.  The `else` branch discards its
`AttributeError`, a silent no-op. -/
def NGrams.normalize_transition_matrix (m : NGrams) : NGrams :=
  if m.normalized_transition = false then
    let pz := fibers midOf m.transition
    let pxy := fibers xyOf m.transition
    let pzg : Dict (Dict ℚ) :=
      (pxy.map fun e => e.1).map fun xy =>
        (xy, normRow (fibers midOf (m.transition.filter fun e => decide (xyOf e.1 = xy))))
    let tot := sumV m.transition
    { m with
        transition := m.transition.map fun e => (e.1, e.2 / tot)
        p_x_y := some (pxy.map fun e => (e.1, e.2 / tot))
        p_z := some (pz.map fun e => (e.1, e.2 / tot))
        p_z_given_x_y := some pzg }
  else m

/-- `NGrams.normalize_init_vector` — same wrong-flag guard and discarded
`AttributeError` as the chain model. -/
def NGrams.normalize_init_vector (m : NGrams) : NGrams :=
  if m.normalized_transition = false then
    { m with init_vector := normRow m.init_vector }
  else m

/-- The body of `NGrams.predict_transition_bayes`'s `try` block, with the
exact Python evaluation order: attribute access on a table that
`normalize_transition_matrix` never created raises `AttributeError`
(uncaught); a missing key in any of the three tables raises `KeyError`,
caught and turned into a 0 score; a zero marginal raises
`ZeroDivisionError` (uncaught). -/
def bayesScore (m : NGrams) (z xy : String) : Except String ℚ :=
  match m.p_z_given_x_y with
  | none => .error "AttributeError: NGrams object has no attribute p_z_given_x_y"
  | some pzg =>
    match dfind? pzg xy with
    | none => .ok 0
    | some row =>
      match dfind? row z with
      | none => .ok 0
      | some a =>
        match m.p_x_y with
        | none => .error "AttributeError: NGrams object has no attribute p_x_y"
        | some pxy =>
          match dfind? pxy xy with
          | none => .ok 0
          | some b =>
            match m.p_z with
            | none => .error "AttributeError: NGrams object has no attribute p_z"
            | some pz =>
              match dfind? pz z with
              | none => .ok 0
              | some d => if d = 0 then .error "ZeroDivisionError" else .ok (a * b / d)

/-- The loop of `NGrams.predict_proba`: every interior index runs
`predict_transition_bayes`, appending its score to `pr` and the
space-joined word window to `words`. -/
def predNLoop (m : NGrams) (s : List (String × String)) :
    List Nat → List ℚ → List String → Except String (List ℚ × List String)
  | [], pr, words => .ok (pr, words)
  | ix :: rest, pr, words =>
    if ix = 0 ∨ ix = s.length - 1 then predNLoop m s rest pr words
    else
      let z := (s.getD ix ("", "")).2
      let xy := (s.getD (ix - 1) ("", "")).2 ++ "**" ++ (s.getD (ix + 1) ("", "")).2
      match bayesScore m z xy with
      | .error e => .error e
      | .ok q =>
        predNLoop m s rest (pr ++ [q])
          (words ++ [spaceJoin [(s.getD (ix - 1) ("", "")).1, (s.getD ix ("", "")).1,
            (s.getD (ix + 1) ("", "")).1]])

/-- `NGrams.predict_proba`.  After the (guarded) loop the method always
runs `np.array(self.pr).argmin()`, which raises `ValueError` when no score
was produced; otherwise it returns the scores together with the single
window string at the position of minimum score. -/
def NGrams.predict_proba (m : NGrams) (pos : List (String × String)) :
    Except String (List ℚ × String) :=
  let run : Except String (List ℚ × List String) :=
    if pos.length > m.order + 1 then predNLoop m pos (List.range pos.length) [] []
    else .ok ([], [])
  match run with
  | .error e => .error e
  | .ok (pr, words) =>
    match pr with
    | [] => .error "ValueError: attempt to get argmin of an empty sequence"
    | _ :: _ => .ok (pr, words.getD (argminIdx pr) "")

/-- Python `l[i]` with an `Int` index: negative indices count from the
end, out-of-range access yields `none` (an `IndexError` at the call
site). -/
def pyGet {α : Type} (l : List α) (i : Int) : Option α :=
  if 0 ≤ i then l.get? i.toNat
  else if (-i) ≤ (l.length : Int) then l.get? (l.length - (-i).toNat) else none

/-- The inner loop of `verb_filter` over one sentence's indices.  An empty
tag makes `p[0]` raise `IndexError` outside the `try` (uncaught); inside
the `try`, the three indexings either all succeed — note that `pos[ix-1]`
for `ix = 0` is Python's `pos[-1]`, the last token — or the failure is
caught by `except Exception: pass`. -/
def vfLoop (s : List (String × String)) :
    List Nat → List (List (String × String)) → Except String (List (List (String × String)))
  | [], acc => .ok acc
  | ix :: rest, acc =>
    match (s.getD ix ("", "")).2.data with
    | [] => .error "IndexError: string index out of range"
    | c :: _ =>
      if c = 'V' then
        match pyGet s ((ix : Int) - 1), pyGet s (ix : Int), pyGet s ((ix : Int) + 1) with
        | some a, some b, some c2 => vfLoop s rest (acc ++ [[a, b, c2]])
        | _, _, _ => vfLoop s rest acc
      else vfLoop s rest acc

/-- The outer sentence loop of `verb_filter`: one flat accumulator over
all sentences. -/
def vfAll : List (List (String × String)) → List (List (String × String)) →
    Except String (List (List (String × String)))
  | [], acc => .ok acc
  | s :: rest, acc =>
    match vfLoop s (List.range s.length) acc with
    | .error e => .error e
    | .ok acc2 => vfAll rest acc2

/-- `verb_filter` from `utils.py`. -/
def verb_filter (pos : List (List (String × String))) :
    Except String (List (List (String × String))) :=
  vfAll pos []

/-- `np.where((np.array(pr) < thresh) & (np.array(pr) > 0))[0]`: the
ascending list of indices whose score lies strictly between 0 and the
threshold. -/
def npWhere (pr : List ℚ) (thresh : ℚ) : List Nat :=
  (List.range pr.length).filter fun i => decide (pr.getD i 0 < thresh ∧ 0 < pr.getD i 0)

/-- The comprehension `[words[l] for l in lwst[0]]`: Python list indexing
raises `IndexError` past the end. -/
def selIdx (words : List String) : List Nat → Except String (List String)
  | [] => .ok []
  | i :: rest =>
    match words.get? i with
    | none => .error "IndexError: list index out of range"
    | some w =>
      match selIdx words rest with
      | .error e => .error e
      | .ok ws => .ok (w :: ws)

/-- `flag_phrases` from `utils.py`. -/
def flag_phrases (pr : List ℚ) (words : List String) (thresh : ℚ) :
    Except String (List String) :=
  selIdx words (npWhere pr thresh)

/-- The sequence of raw table lookups performed by the transition steps of
`MarkovChain.predict_proba`: `none` when the state row or the tag cell is
absent. -/
def transOpts (m : MarkovChain) : List String → String → List (Option ℚ)
  | [], _ => []
  | p :: rest, prvs =>
    ((dfind? m.transition prvs).bind fun row => dfind? row p) :: transOpts m rest (nextP m.order prvs p)

/-- All raw lookups of one chain-model prediction: the initial-state
lookup followed by one transition lookup per remaining token. -/
def chainOptScores (m : MarkovChain) (pos : List (String × String)) : List (Option ℚ) :=
  dfind? m.init_vector (starsJoin ((pos.take m.order).map fun e => e.2)) ::
    transOpts m ((pos.drop m.order).map fun e => e.2)
      (starsJoin ((pos.take m.order).map fun e => e.2))

/-- The Bayes score of one interior position of the co-occurrence model:
`p_z_given_x_y[x**y][z] * p_x_y[x**y] / p_z[z]`, with 0 whenever any of
the three entries is missing. -/
def ngramScore (pzg : Dict (Dict ℚ)) (pxy pz : Dict ℚ) (z xy : String) : ℚ :=
  match dfind? pzg xy with
  | none => 0
  | some row =>
    match dfind? row z with
    | none => 0
    | some a =>
      match dfind? pxy xy with
      | none => 0
      | some b =>
        match dfind? pz z with
        | none => 0
        | some d => a * b / d

/-- Whether a tag string begins with the verb marker. -/
def headIsV (p : String) : Bool :=
  match p.data with
  | c :: _ => c = 'V'
  | [] => false

/-- The triples that `verb_filter` actually produces: one per verb-tagged
position that has a right neighbour, the left element wrapping around to
the sentence's last token when the verb is at position 0. -/
def verbTriples (pos : List (List (String × String))) : List (List (String × String)) :=
  (pos.map fun s =>
    (List.range s.length).filterMap fun ix =>
      if headIsV (s.getD ix ("", "")).2 ∧ ix + 1 < s.length then
        some [s.getD (if ix = 0 then s.length - 1 else ix - 1) ("", ""),
          s.getD ix ("", ""), s.getD (ix + 1) ("", "")]
      else none).flatten

/-- Claim C1 (code behaviour at the failing inputs): fitting a corpus of
short sentences does leave the count tables unchanged, but `predict_proba`
on a sequence of length order+1 raises instead of returning an empty score
vector: the chain model returns the never-created `self.pr` attribute
(`AttributeError`) and the co-occurrence model calls `argmin` on an empty
array (`ValueError`). -/
theorem short_sequence_predict_raises :
    ((MarkovChain.new 1).fit [[("a", "A"), ("b", "B")]]).transition = []
    ∧ ((MarkovChain.new 1).fit [[("a", "A"), ("b", "B")]]).init_vector = []
    ∧ ((NGrams.new 1).fit [[("a", "A"), ("b", "B")]]).transition = []
    ∧ ((NGrams.new 1).fit [[("a", "A"), ("b", "B")]]).init_vector = []
    ∧ ((MarkovChain.new 1).fit
        [[("the", "DT"), ("dog", "NN"), ("runs", "VBZ"), ("fast", "RB")]]).predict_proba
        [("the", "DT"), ("dog", "NN")]
      = .error "AttributeError: MarkovChain object has no attribute pr"
    ∧ (((NGrams.new 1).fit
        [[("the", "DT"), ("dog", "NN"), ("runs", "VBZ"), ("fast", "RB")]]).normalize_transition_matrix).predict_proba
        [("the", "DT"), ("dog", "NN")]
      = .error "ValueError: attempt to get argmin of an empty sequence" := by
  decide

/-- Claim C2 (code behaviour): the `normalized_init` / `normalized_transition`
flags are still `false` after a full `fit` (which ends by normalizing both
tables), so a second normalization call silently re-enters the division
branch; and even on a state whose flags are forced to `true`, both
normalization methods return normally without reporting anything — the
`AttributeError` the source constructs is never raised. -/
theorem renormalize_error_never_reported :
    (((MarkovChain.new 1).fit
        [[("the", "DT"), ("dog", "NN"), ("runs", "VBZ")]]).normalized_init = false
      ∧ ((MarkovChain.new 1).fit
        [[("the", "DT"), ("dog", "NN"), ("runs", "VBZ")]]).normalized_transition = false)
    ∧ (let m : MarkovChain :=
        { order := 1, transition := [("A", [("B", 2)])], init_vector := [("A", 2)],
          normalized_init := true, normalized_transition := true, pr := none }
       m.normalize_init_vector = m ∧ m.normalize_transition_matrix = m)
    ∧ (((NGrams.new 1).fit
        [[("the", "DT"), ("dog", "NN"), ("runs", "VBZ")]]).normalize_transition_matrix.normalized_transition
        = false)
    ∧ (let n : NGrams :=
        { order := 1, transition := [("A**B**C", 2)], init_vector := [("B", 2)],
          normalized_init := true, normalized_transition := true,
          p_z := none, p_x_y := none, p_z_given_x_y := none }
       n.normalize_init_vector = n ∧ n.normalize_transition_matrix = n) := by
  decide

/-- Claim C8: the end-to-end example.  After fitting the one-sentence
corpus with order 1, the initial distribution and every transition cell
equal 1; predicting the same sentence yields the score vector
`[1, 1, 1, 1]` and the first window's word text, the argmin tie resolving
to the lowest index. -/
theorem end_to_end_example :
    (dfind? ((MarkovChain.new 1).fit
      [[("the", "DT"), ("dog", "NN"), ("runs", "VBZ"), ("fast", "RB")]]).init_vector "DT"
      = some 1)
    ∧ (((dfind? ((MarkovChain.new 1).fit
        [[("the", "DT"), ("dog", "NN"), ("runs", "VBZ"), ("fast", "RB")]]).transition "DT").bind
        fun row => dfind? row "NN") = some 1)
    ∧ (((dfind? ((MarkovChain.new 1).fit
        [[("the", "DT"), ("dog", "NN"), ("runs", "VBZ"), ("fast", "RB")]]).transition "NN").bind
        fun row => dfind? row "VBZ") = some 1)
    ∧ (((dfind? ((MarkovChain.new 1).fit
        [[("the", "DT"), ("dog", "NN"), ("runs", "VBZ"), ("fast", "RB")]]).transition "VBZ").bind
        fun row => dfind? row "RB") = some 1)
    ∧ (((MarkovChain.new 1).fit
        [[("the", "DT"), ("dog", "NN"), ("runs", "VBZ"), ("fast", "RB")]]).predict_proba
        [("the", "DT"), ("dog", "NN"), ("runs", "VBZ"), ("fast", "RB")]
      = .ok ([1, 1, 1, 1], ["the"])) := by
  with_unfolding_all decide

/-- Claim C4, counterexample: with the verb at position 0 — a position
with no left neighbour — `verb_filter` still emits a triple, whose left
element wraps around to the sentence's last token (Python `pos[-1]`),
where the claim predicts the empty output. -/
theorem verb_filter_wraparound :
    verb_filter [[("run", "VB"), ("dog", "NN")]]
      = .ok [[("dog", "NN"), ("run", "VB"), ("dog", "NN")]]
    ∧ [[("dog", "NN"), ("run", "VB"), ("dog", "NN")]]
      ≠ ([] : List (List (String × String))) := by
  decide

theorem predictLoop_fst (m : MarkovChain) (l : List (String × String)) :
    ∀ (prvs prvs_w : String) (pr : List ℚ) (words : List String),
    (predictLoop m l prvs prvs_w pr words).1
      = pr ++ (transOpts m (l.map fun e => e.2) prvs).map fun o => o.getD 0 := by
  induction l with
  | nil => intro prvs prvs_w pr words; simp [predictLoop, transOpts]
  | cons e rest ih =>
    intro prvs prvs_w pr words
    obtain ⟨w, p⟩ := e
    simp only [predictLoop, transOpts, List.map_cons]
    rw [ih]
    simp

theorem transOpts_length (m : MarkovChain) (l : List String) :
    ∀ prvs, (transOpts m l prvs).length = l.length := by
  induction l with
  | nil => intro prvs; rfl
  | cons p rest ih => intro prvs; simp [transOpts, ih]

theorem getD_map_getD (l : List (Option ℚ)) :
    ∀ i, (l.map fun o => o.getD 0).getD i 1 = (l.getD i (some 1)).getD 0 := by
  induction l with
  | nil => intro i; simp
  | cons o rest ih =>
    intro i
    cases i with
    | zero => simp
    | succ j => simpa using ih j

/-- Claim C3: chain-model prediction is total.  For any instance and any
input longer than order+1 tokens, `predict_proba` returns `.ok`; the score
vector is exactly the per-position raw lookups with missing entries
defaulted to 0, it has one entry per eligible position
(`pos.length - order + 1` of them), and every position whose initial-state
key, transition row, or transition cell is absent scores exactly 0. -/
theorem chain_predict_total (m : MarkovChain) (pos : List (String × String))
    (h : pos.length > m.order + 1) :
    (∃ ws, m.predict_proba pos
        = .ok ((chainOptScores m pos).map (fun o => o.getD 0), ws))
    ∧ (chainOptScores m pos).length = pos.length - m.order + 1
    ∧ ∀ i, (chainOptScores m pos).getD i (some 1) = none →
        ((chainOptScores m pos).map fun o => o.getD 0).getD i 1 = 0 := by
  refine ⟨?_, ?_, ?_⟩
  · unfold MarkovChain.predict_proba
    rw [if_pos h]
    simp only [predictLoop_fst, chainOptScores, List.map_cons, List.singleton_append]
    exact ⟨_, rfl⟩
  · simp only [chainOptScores, List.length_cons, transOpts_length, List.length_map,
      List.length_drop]
  · intro i hi
    rw [getD_map_getD, hi]
    rfl

/-- Witness for C3 at a concrete fitted model and an input containing an
unseen tag. -/
theorem chain_predict_total_witness :
    ([("a", "DT"), ("cat", "XX"), ("sleeps", "VBZ")].length
        > ((MarkovChain.new 1).fit
          [[("the", "DT"), ("dog", "NN"), ("runs", "VBZ"), ("fast", "RB")]]).order + 1)
    ∧ ((∃ ws, ((MarkovChain.new 1).fit
          [[("the", "DT"), ("dog", "NN"), ("runs", "VBZ"), ("fast", "RB")]]).predict_proba
          [("a", "DT"), ("cat", "XX"), ("sleeps", "VBZ")]
        = .ok ((chainOptScores ((MarkovChain.new 1).fit
            [[("the", "DT"), ("dog", "NN"), ("runs", "VBZ"), ("fast", "RB")]])
            [("a", "DT"), ("cat", "XX"), ("sleeps", "VBZ")]).map (fun o => o.getD 0), ws))
      ∧ (chainOptScores ((MarkovChain.new 1).fit
          [[("the", "DT"), ("dog", "NN"), ("runs", "VBZ"), ("fast", "RB")]])
          [("a", "DT"), ("cat", "XX"), ("sleeps", "VBZ")]).length
        = [("a", "DT"), ("cat", "XX"), ("sleeps", "VBZ")].length
          - ((MarkovChain.new 1).fit
            [[("the", "DT"), ("dog", "NN"), ("runs", "VBZ"), ("fast", "RB")]]).order + 1
      ∧ ∀ i, (chainOptScores ((MarkovChain.new 1).fit
            [[("the", "DT"), ("dog", "NN"), ("runs", "VBZ"), ("fast", "RB")]])
            [("a", "DT"), ("cat", "XX"), ("sleeps", "VBZ")]).getD i (some 1) = none →
          ((chainOptScores ((MarkovChain.new 1).fit
            [[("the", "DT"), ("dog", "NN"), ("runs", "VBZ"), ("fast", "RB")]])
            [("a", "DT"), ("cat", "XX"), ("sleeps", "VBZ")]).map fun o => o.getD 0).getD i 1
            = 0) :=
  ⟨by decide, chain_predict_total _ _ (by decide)⟩

theorem selIdx_map_succ (w : String) (ws : List String) (l : List Nat) :
    selIdx (w :: ws) (l.map Nat.succ) = selIdx ws l := by
  induction l with
  | nil => rfl
  | cons i rest ih =>
    simp only [List.map_cons, selIdx, List.get?_cons_succ, ih]

theorem npWhere_cons (x : ℚ) (pr : List ℚ) (t : ℚ) :
    npWhere (x :: pr) t
      = (if x < t ∧ 0 < x then [0] else []) ++ (npWhere pr t).map Nat.succ := by
  simp only [npWhere, List.length_cons, List.range_succ_eq_map, List.filter_cons]
  rw [List.filter_map]
  have hcomp : ((fun i => decide ((x :: pr).getD i 0 < t ∧ 0 < (x :: pr).getD i 0)) ∘ Nat.succ)
      = fun i => decide (pr.getD i 0 < t ∧ 0 < pr.getD i 0) := rfl
  rw [hcomp]
  by_cases hc : x < t ∧ 0 < x
  · simp [hc]
  · simp [hc]

/-- Claim C9: for parallel score and window lists, `flag_phrases` returns
exactly the windows whose score is strictly between 0 and the threshold;
in particular a score equal to 0 or equal to the threshold is never
flagged. -/
theorem flag_phrases_strict (pr : List ℚ) :
    ∀ (words : List String) (t : ℚ), words.length = pr.length →
    flag_phrases pr words t
      = .ok (((pr.zip words).filter fun e => decide (0 < e.1 ∧ e.1 < t)).map fun e => e.2) := by
  induction pr with
  | nil => intro words t h; rfl
  | cons x pr ih =>
    intro words t h
    cases words with
    | nil => simp at h
    | cons w ws =>
      have hlen : ws.length = pr.length := by simpa using h
      have hih := ih ws t hlen
      unfold flag_phrases at hih ⊢
      rw [npWhere_cons]
      by_cases hc : x < t ∧ 0 < x
      · rw [if_pos hc]
        simp only [List.singleton_append, List.nil_append, selIdx, List.get?_cons_zero]
        simp only [List.append_eq, List.nil_append]
        rw [selIdx_map_succ, hih]
        have hc2 : 0 < x ∧ x < t := ⟨hc.2, hc.1⟩
        simp [List.filter_cons, hc2]
      · rw [if_neg hc]
        simp only [List.nil_append, selIdx_map_succ, hih]
        have hc2 : ¬(0 < x ∧ x < t) := fun hx => hc ⟨hx.2, hx.1⟩
        simp [List.filter_cons, hc2]

/-- Witness for C9 with the threshold 0.02 = 2/100 and scores hitting both
boundaries exactly. -/
theorem flag_phrases_strict_witness :
    (["a", "b", "c", "d"].length = ([0, 1/100, 2/100, 3/100] : List ℚ).length)
    ∧ flag_phrases [0, 1/100, 2/100, 3/100] ["a", "b", "c", "d"] (2/100)
      = .ok (((([0, 1/100, 2/100, 3/100] : List ℚ).zip ["a", "b", "c", "d"]).filter
          fun e => decide (0 < e.1 ∧ e.1 < 2/100)).map fun e => e.2) :=
  ⟨by decide, flag_phrases_strict [0, 1/100, 2/100, 3/100] ["a", "b", "c", "d"] (2/100)
    (by decide)⟩

theorem foldl_preserve {α β : Type} (g : α → β) (f : α → Nat → α)
    (hf : ∀ a i, g (f a i) = g a) (l : List Nat) : ∀ a, g (l.foldl f a) = g a := by
  induction l with
  | nil => intro a; rfl
  | cons i rest ih =>
    intro a
    simp only [List.foldl_cons]
    rw [ih, hf]

theorem fitSentence_fields (m : NGrams) (s : List (String × String)) :
    (m.fitSentence s).order = m.order ∧ (m.fitSentence s).p_z = m.p_z
    ∧ (m.fitSentence s).p_x_y = m.p_x_y
    ∧ (m.fitSentence s).p_z_given_x_y = m.p_z_given_x_y := by
  unfold NGrams.fitSentence
  split
  · refine ⟨foldl_preserve _ _ ?_ _ m, foldl_preserve _ _ ?_ _ m,
      foldl_preserve _ _ ?_ _ m, foldl_preserve _ _ ?_ _ m⟩ <;>
      { intro a i
        split
        · rfl
        · rfl }
  · exact ⟨rfl, rfl, rfl, rfl⟩

theorem ngrams_fit_fields (corpus : List (List (String × String))) :
    ∀ m : NGrams, (m.fit corpus).order = m.order ∧ (m.fit corpus).p_z = m.p_z
      ∧ (m.fit corpus).p_x_y = m.p_x_y
      ∧ (m.fit corpus).p_z_given_x_y = m.p_z_given_x_y := by
  induction corpus with
  | nil => intro m; exact ⟨rfl, rfl, rfl, rfl⟩
  | cons s rest ih =>
    intro m
    obtain ⟨h1, h2, h3, h4⟩ := fitSentence_fields m s
    obtain ⟨g1, g2, g3, g4⟩ := ih (m.fitSentence s)
    exact ⟨g1.trans h1, g2.trans h2, g3.trans h3, g4.trans h4⟩

/-- Claim C10: after `fit` alone (whose normalization calls are commented
out) the derived tables `p_z`, `p_x_y` and `p_z_given_x_y` do not exist,
and `predict_proba` on any long-enough input raises instead of returning
zero scores: the `except KeyError` handler does not cover the missing
attribute (`AttributeError`; for the degenerate order-0, length-2 input
the loop body never runs and `argmin` raises `ValueError` instead). -/
theorem ngrams_predict_before_normalize_raises (order : Nat)
    (corpus : List (List (String × String))) (pos : List (String × String))
    (h : pos.length > order + 1) :
    ((NGrams.new order).fit corpus).p_z = none
    ∧ ((NGrams.new order).fit corpus).p_x_y = none
    ∧ ((NGrams.new order).fit corpus).p_z_given_x_y = none
    ∧ ∃ e, ((NGrams.new order).fit corpus).predict_proba pos = .error e := by
  obtain ⟨ho, hz, hxy, hzg⟩ := ngrams_fit_fields corpus (NGrams.new order)
  refine ⟨hz, hxy, hzg, ?_⟩
  have hlen : pos.length > ((NGrams.new order).fit corpus).order + 1 := by
    rw [ho]; exact h
  unfold NGrams.predict_proba
  rw [if_pos hlen]
  rcases Nat.lt_or_ge pos.length 3 with h3 | h3
  · have h2 : pos.length = 2 := by omega
    rw [h2]
    have : List.range 2 = [0, 1] := by decide
    rw [this]
    simp only [predNLoop, h2]
    exact ⟨_, rfl⟩
  · obtain ⟨k, hk⟩ : ∃ k, pos.length = k + 3 := ⟨pos.length - 3, by omega⟩
    rw [hk, List.range_succ_eq_map, List.range_succ_eq_map]
    simp only [List.map_cons]
    rw [predNLoop, if_pos (Or.inl rfl), predNLoop]
    rw [if_neg (by omega)]
    unfold bayesScore
    rw [hzg]
    exact ⟨_, rfl⟩

/-- Witness for C10: order 1, a three-token training sentence, prediction
on a three-token input. -/
theorem ngrams_predict_before_normalize_raises_witness :
    ([("a", "DT"), ("b", "NN"), ("c", "VB")].length > 1 + 1)
    ∧ (((NGrams.new 1).fit [[("the", "DT"), ("dog", "NN"), ("runs", "VBZ")]]).p_z = none
      ∧ ((NGrams.new 1).fit [[("the", "DT"), ("dog", "NN"), ("runs", "VBZ")]]).p_x_y = none
      ∧ ((NGrams.new 1).fit [[("the", "DT"), ("dog", "NN"), ("runs", "VBZ")]]).p_z_given_x_y
        = none
      ∧ ∃ e, ((NGrams.new 1).fit [[("the", "DT"), ("dog", "NN"), ("runs", "VBZ")]]).predict_proba
          [("a", "DT"), ("b", "NN"), ("c", "VB")] = .error e) :=
  ⟨by decide, ngrams_predict_before_normalize_raises 1
    [[("the", "DT"), ("dog", "NN"), ("runs", "VBZ")]]
    [("a", "DT"), ("b", "NN"), ("c", "VB")] (by decide)⟩

theorem dfind?_mem {α : Type} (l : Dict α) (k : String) (v : α)
    (h : dfind? l k = some v) : ∃ e ∈ l, e.1 = k ∧ e.2 = v := by
  unfold dfind? at h
  cases hf : l.find? fun e => e.1 == k with
  | none => rw [hf] at h; simp at h
  | some e =>
    rw [hf] at h
    simp at h
    have hm := List.mem_of_find?_eq_some hf
    have hp := List.find?_some hf
    simp only [beq_iff_eq] at hp
    exact ⟨e, hm, hp, h⟩

theorem bayesScore_ok (m : NGrams) (pzg : Dict (Dict ℚ)) (pxy pz : Dict ℚ)
    (hzg : m.p_z_given_x_y = some pzg) (hxy : m.p_x_y = some pxy) (hz : m.p_z = some pz)
    (hpz : ∀ e ∈ pz, e.2 ≠ 0) (z xy : String) :
    bayesScore m z xy = .ok (ngramScore pzg pxy pz z xy) := by
  unfold bayesScore ngramScore
  simp only [hzg, hxy, hz]
  cases dfind? pzg xy with
  | none => rfl
  | some row =>
    simp only []
    cases dfind? row z with
    | none => rfl
    | some a =>
      simp only []
      cases dfind? pxy xy with
      | none => rfl
      | some b =>
        simp only []
        cases hd : dfind? pz z with
        | none => rfl
        | some d =>
          simp only []
          obtain ⟨e, he, _, hev⟩ := dfind?_mem pz z d hd
          rw [if_neg (hev ▸ hpz e he)]

/-- The per-interior-position score list of the co-occurrence model's
prediction: the Bayes formula at every index of `ixs` that is neither 0
nor the last position of `s`. -/
def ngramInterior (pzg : Dict (Dict ℚ)) (pxy pz : Dict ℚ)
    (s : List (String × String)) (ixs : List Nat) : List ℚ :=
  (ixs.filter fun ix => decide ¬(ix = 0 ∨ ix = s.length - 1)).map fun ix =>
    ngramScore pzg pxy pz (s.getD ix ("", "")).2
      ((s.getD (ix - 1) ("", "")).2 ++ "**" ++ (s.getD (ix + 1) ("", "")).2)

theorem predNLoop_ok (m : NGrams) (s : List (String × String))
    (pzg : Dict (Dict ℚ)) (pxy pz : Dict ℚ)
    (hzg : m.p_z_given_x_y = some pzg) (hxy : m.p_x_y = some pxy) (hz : m.p_z = some pz)
    (hpz : ∀ e ∈ pz, e.2 ≠ 0) :
    ∀ (l : List Nat) (pr : List ℚ) (words : List String),
    ∃ ws, predNLoop m s l pr words = .ok (pr ++ ngramInterior pzg pxy pz s l, ws) := by
  intro l
  induction l with
  | nil =>
    intro pr words
    exact ⟨words, by simp [predNLoop, ngramInterior]⟩
  | cons ix rest ih =>
    intro pr words
    by_cases hc : ix = 0 ∨ ix = s.length - 1
    · obtain ⟨ws, hws⟩ := ih pr words
      refine ⟨ws, ?_⟩
      have hskip : ngramInterior pzg pxy pz s (ix :: rest) = ngramInterior pzg pxy pz s rest := by
        unfold ngramInterior
        rw [List.filter_cons]
        simp [hc]
      rw [hskip, predNLoop, if_pos hc, hws]
    · obtain ⟨ws, hws⟩ := ih (pr ++ [ngramScore pzg pxy pz (s.getD ix ("", "")).2
        ((s.getD (ix - 1) ("", "")).2 ++ "**" ++ (s.getD (ix + 1) ("", "")).2)])
        (words ++ [spaceJoin [(s.getD (ix - 1) ("", "")).1, (s.getD ix ("", "")).1,
          (s.getD (ix + 1) ("", "")).1]])
      refine ⟨ws, ?_⟩
      have hkeep : ngramInterior pzg pxy pz s (ix :: rest)
          = ngramScore pzg pxy pz (s.getD ix ("", "")).2
              ((s.getD (ix - 1) ("", "")).2 ++ "**" ++ (s.getD (ix + 1) ("", "")).2)
            :: ngramInterior pzg pxy pz s rest := by
        unfold ngramInterior
        rw [List.filter_cons]
        simp [hc]
      rw [hkeep, predNLoop, if_neg hc]
      simp only []
      rw [bayesScore_ok m pzg pxy pz hzg hxy hz hpz]
      simp only []
      rw [hws]
      simp

/-- Claim C6: prediction of a fitted-and-normalized co-occurrence model.
For every input with more than order+1 tokens (and at least one interior
position), `predict_proba` succeeds and returns one score per interior
position, each equal to `p_z_given_x_y[x**y][z] * p_x_y[x**y] / p_z[z]`
for the neighbour tags `x`, `y` and centre tag `z`, and equal to 0
whenever any of those three entries is missing (see `ngramScore`). -/
theorem ngrams_predict_formula (m : NGrams) (pzg : Dict (Dict ℚ)) (pxy pz : Dict ℚ)
    (pos : List (String × String))
    (hzg : m.p_z_given_x_y = some pzg) (hxy : m.p_x_y = some pxy) (hz : m.p_z = some pz)
    (hpz : ∀ e ∈ pz, e.2 ≠ 0) (h : pos.length > m.order + 1) (h3 : 3 ≤ pos.length) :
    ∃ w, m.predict_proba pos
      = .ok (ngramInterior pzg pxy pz pos (List.range pos.length), w) := by
  unfold NGrams.predict_proba
  rw [if_pos h]
  obtain ⟨ws, hloop⟩ := predNLoop_ok m pos pzg pxy pz hzg hxy hz hpz
    (List.range pos.length) [] []
  rw [hloop]
  have hne : ngramInterior pzg pxy pz pos (List.range pos.length) ≠ [] := by
    have h1 : (1 : Nat) ∈ (List.range pos.length).filter
        fun ix => decide ¬(ix = 0 ∨ ix = pos.length - 1) := by
      rw [List.mem_filter]
      refine ⟨List.mem_range.mpr (by omega), ?_⟩
      simp only [decide_eq_true_eq]
      omega
    exact List.ne_nil_of_mem (List.mem_map_of_mem _ h1)
  simp only [List.nil_append]
  cases hcase : ngramInterior pzg pxy pz pos (List.range pos.length) with
  | nil => exact absurd hcase hne
  | cons q qs =>
    exact ⟨ws.getD (argminIdx (q :: qs)) "", rfl⟩

/-- Witness for C6 on the four-token example corpus: the normalized
co-occurrence model predicts the fitted sentence itself. -/
theorem ngrams_predict_formula_witness :
    ((((NGrams.new 1).fit
        [[("the", "DT"), ("dog", "NN"), ("runs", "VBZ"), ("fast", "RB")]]).normalize_transition_matrix).p_z_given_x_y
        = some [("DT**VBZ", [("NN", 1)]), ("NN**RB", [("VBZ", 1)])]
      ∧ (((NGrams.new 1).fit
        [[("the", "DT"), ("dog", "NN"), ("runs", "VBZ"), ("fast", "RB")]]).normalize_transition_matrix).p_x_y
        = some [("DT**VBZ", 1/2), ("NN**RB", 1/2)]
      ∧ (((NGrams.new 1).fit
        [[("the", "DT"), ("dog", "NN"), ("runs", "VBZ"), ("fast", "RB")]]).normalize_transition_matrix).p_z
        = some [("NN", 1/2), ("VBZ", 1/2)]
      ∧ (∀ e ∈ ([("NN", 1/2), ("VBZ", 1/2)] : Dict ℚ), e.2 ≠ 0)
      ∧ [("the", "DT"), ("dog", "NN"), ("runs", "VBZ"), ("fast", "RB")].length
        > (((NGrams.new 1).fit
          [[("the", "DT"), ("dog", "NN"), ("runs", "VBZ"), ("fast", "RB")]]).normalize_transition_matrix).order + 1
      ∧ 3 ≤ [("the", "DT"), ("dog", "NN"), ("runs", "VBZ"), ("fast", "RB")].length)
    ∧ ∃ w, (((NGrams.new 1).fit
        [[("the", "DT"), ("dog", "NN"), ("runs", "VBZ"), ("fast", "RB")]]).normalize_transition_matrix).predict_proba
        [("the", "DT"), ("dog", "NN"), ("runs", "VBZ"), ("fast", "RB")]
      = .ok (ngramInterior [("DT**VBZ", [("NN", 1)]), ("NN**RB", [("VBZ", 1)])]
          [("DT**VBZ", 1/2), ("NN**RB", 1/2)] [("NN", 1/2), ("VBZ", 1/2)]
          [("the", "DT"), ("dog", "NN"), ("runs", "VBZ"), ("fast", "RB")]
          (List.range [("the", "DT"), ("dog", "NN"), ("runs", "VBZ"), ("fast", "RB")].length), w) :=
  ⟨⟨by with_unfolding_all decide, by with_unfolding_all decide, by with_unfolding_all decide,
      by with_unfolding_all decide, by with_unfolding_all decide, by with_unfolding_all decide⟩,
    ngrams_predict_formula
      (((NGrams.new 1).fit
        [[("the", "DT"), ("dog", "NN"), ("runs", "VBZ"), ("fast", "RB")]]).normalize_transition_matrix)
      [("DT**VBZ", [("NN", 1)]), ("NN**RB", [("VBZ", 1)])]
      [("DT**VBZ", 1/2), ("NN**RB", 1/2)] [("NN", 1/2), ("VBZ", 1/2)]
      [("the", "DT"), ("dog", "NN"), ("runs", "VBZ"), ("fast", "RB")]
      (by with_unfolding_all decide) (by with_unfolding_all decide)
      (by with_unfolding_all decide) (by with_unfolding_all decide)
      (by with_unfolding_all decide) (by with_unfolding_all decide)⟩

theorem sumV_nonneg (d : Dict ℚ) (h : ∀ e ∈ d, 0 ≤ e.2) : 0 ≤ sumV d := by
  induction d with
  | nil => simp [sumV]
  | cons x rest ih =>
    have hx := h x (List.mem_cons_self x rest)
    have hr := ih fun e he => h e (List.mem_cons_of_mem x he)
    simp only [sumV, List.map_cons, List.sum_cons] at hr ⊢
    linarith

theorem sumV_pos (d : Dict ℚ) (hne : d ≠ []) (h : ∀ e ∈ d, 0 < e.2) : 0 < sumV d := by
  cases d with
  | nil => exact absurd rfl hne
  | cons x rest =>
    have hx := h x (List.mem_cons_self x rest)
    have hr : 0 ≤ sumV rest :=
      sumV_nonneg rest fun e he => le_of_lt (h e (List.mem_cons_of_mem x he))
    simp only [sumV, List.map_cons, List.sum_cons] at hr ⊢
    linarith

theorem sumV_map_div (d : Dict ℚ) (c : ℚ) :
    sumV (d.map fun e => (e.1, e.2 / c)) = sumV d / c := by
  induction d with
  | nil => simp [sumV]
  | cons x rest ih =>
    simp only [sumV, List.map_cons, List.sum_cons] at ih ⊢
    rw [ih, div_add_div_same]

theorem sumV_normRow (d : Dict ℚ) (h : 0 < sumV d) : sumV (normRow d) = 1 := by
  unfold normRow
  rw [sumV_map_div, div_self (ne_of_gt h)]

theorem mem_dset {α : Type} (d : Dict α) (k : String) (v : α) :
    ∀ e ∈ dset d k v, e = (k, v) ∨ e ∈ d := by
  induction d with
  | nil => intro e he; simp [dset] at he; exact Or.inl he
  | cons x rest ih =>
    intro e he
    unfold dset at he
    by_cases hx : x.1 = k
    · rw [if_pos hx] at he
      rcases List.mem_cons.mp he with h1 | h2
      · exact Or.inl h1
      · exact Or.inr (List.mem_cons_of_mem x h2)
    · rw [if_neg hx] at he
      rcases List.mem_cons.mp he with h1 | h2
      · exact Or.inr (h1 ▸ List.mem_cons_self x rest)
      · rcases ih e h2 with h3 | h4
        · exact Or.inl h3
        · exact Or.inr (List.mem_cons_of_mem x h4)

theorem dset_ne_nil {α : Type} (d : Dict α) (k : String) (v : α) : dset d k v ≠ [] := by
  cases d with
  | nil => simp [dset]
  | cons x rest =>
    unfold dset
    by_cases hx : x.1 = k
    · rw [if_pos hx]; simp
    · rw [if_neg hx]; simp

theorem dincr_pos (d : Dict ℚ) (k : String) (h : ∀ e ∈ d, 0 < e.2) :
    ∀ e ∈ dincr d k, 0 < e.2 := by
  intro e he
  unfold dincr at he
  cases hf : dfind? d k with
  | some v =>
    rw [hf] at he
    rcases mem_dset d k (v + 1) e he with h1 | h2
    · obtain ⟨e0, he0, _, hev⟩ := dfind?_mem d k v hf
      have := h e0 he0
      rw [h1]
      simp only []
      rw [hev] at this
      linarith
    · exact h e h2
  | none =>
    rw [hf] at he
    rcases List.mem_append.mp he with h1 | h2
    · exact h e h1
    · simp at h2
      rw [h2]
      norm_num

theorem dincr_ne_nil (d : Dict ℚ) (k : String) : dincr d k ≠ [] := by
  unfold dincr
  cases dfind? d k with
  | some v => exact dset_ne_nil d k (v + 1)
  | none => simp

/-- Every transition row is non-empty with positive values. -/
def rowsOK (t : Dict (Dict ℚ)) : Prop :=
  ∀ r ∈ t, r.2 ≠ [] ∧ ∀ e ∈ r.2, 0 < e.2

theorem updT_rowsOK (t : Dict (Dict ℚ)) (prvs p : String) (h : rowsOK t) :
    rowsOK (updT t prvs p) := by
  intro r hr
  unfold updT at hr
  cases hf : dfind? t prvs with
  | some row =>
    rw [hf] at hr
    rcases mem_dset t prvs (dincr row p) r hr with h1 | h2
    · obtain ⟨e0, he0, _, hev⟩ := dfind?_mem t prvs row hf
      obtain ⟨_, hpos⟩ := h e0 he0
      rw [h1]
      exact ⟨dincr_ne_nil row p, dincr_pos row p (hev ▸ hpos)⟩
    · exact h r h2
  | none =>
    rw [hf] at hr
    rcases List.mem_append.mp hr with h1 | h2
    · exact h r h1
    · simp at h2
      rw [h2]
      refine ⟨by simp, ?_⟩
      intro e he
      simp at he
      rw [he]
      norm_num

theorem fitLoop_props (l : List (String × String)) :
    ∀ (m : MarkovChain) (prvs : String),
    (fitLoop m l prvs).order = m.order
    ∧ (fitLoop m l prvs).init_vector = m.init_vector
    ∧ (fitLoop m l prvs).normalized_init = m.normalized_init
    ∧ (fitLoop m l prvs).normalized_transition = m.normalized_transition
    ∧ (rowsOK m.transition → rowsOK (fitLoop m l prvs).transition) := by
  induction l with
  | nil => intro m prvs; exact ⟨rfl, rfl, rfl, rfl, fun h => h⟩
  | cons e rest ih =>
    intro m prvs
    obtain ⟨w, p⟩ := e
    obtain ⟨h1, h2, h3, h4, h5⟩ :=
      ih { m with transition := updT m.transition prvs p } (nextP m.order prvs p)
    exact ⟨h1, h2, h3, h4, fun hok => h5 (updT_rowsOK m.transition prvs p hok)⟩

theorem fitSentence_props (m : MarkovChain) (s : List (String × String)) :
    (m.fitSentence s).order = m.order
    ∧ (m.fitSentence s).normalized_init = m.normalized_init
    ∧ (m.fitSentence s).normalized_transition = m.normalized_transition
    ∧ ((∀ e ∈ m.init_vector, 0 < e.2) → ∀ e ∈ (m.fitSentence s).init_vector, 0 < e.2)
    ∧ (m.init_vector ≠ [] → (m.fitSentence s).init_vector ≠ [])
    ∧ (rowsOK m.transition → rowsOK (m.fitSentence s).transition)
    ∧ (s.length > m.order + 1 → (m.fitSentence s).init_vector ≠ []) := by
  unfold MarkovChain.fitSentence
  by_cases hlen : s.length > m.order + 1
  · rw [if_pos hlen]
    obtain ⟨h1, h2, h3, h4, h5⟩ := fitLoop_props (s.drop m.order)
      { m with
          init_vector := dincr m.init_vector (starsJoin ((s.take m.order).map fun e => e.2)) }
      (starsJoin ((s.take m.order).map fun e => e.2))
    refine ⟨h1, h3, h4, ?_, ?_, h5, ?_⟩
    · intro hpos e he
      rw [h2] at he
      exact dincr_pos m.init_vector _ hpos e he
    · intro _
      rw [h2]
      exact dincr_ne_nil m.init_vector _
    · intro _
      rw [h2]
      exact dincr_ne_nil m.init_vector _
  · rw [if_neg hlen]
    exact ⟨rfl, rfl, rfl, fun h => h, fun h => h, fun h => h, fun h => absurd h hlen⟩

theorem fitFold_props (corpus : List (List (String × String))) :
    ∀ m : MarkovChain,
    (corpus.foldl MarkovChain.fitSentence m).order = m.order
    ∧ (corpus.foldl MarkovChain.fitSentence m).normalized_init = m.normalized_init
    ∧ (corpus.foldl MarkovChain.fitSentence m).normalized_transition = m.normalized_transition
    ∧ ((∀ e ∈ m.init_vector, 0 < e.2) →
        ∀ e ∈ (corpus.foldl MarkovChain.fitSentence m).init_vector, 0 < e.2)
    ∧ (m.init_vector ≠ [] → (corpus.foldl MarkovChain.fitSentence m).init_vector ≠ [])
    ∧ (rowsOK m.transition → rowsOK (corpus.foldl MarkovChain.fitSentence m).transition) := by
  induction corpus with
  | nil => intro m; exact ⟨rfl, rfl, rfl, fun h => h, fun h => h, fun h => h⟩
  | cons s rest ih =>
    intro m
    obtain ⟨s1, s2, s3, s4, s5, s6, _⟩ := fitSentence_props m s
    obtain ⟨g1, g2, g3, g4, g5, g6⟩ := ih (m.fitSentence s)
    exact ⟨g1.trans s1, g2.trans s2, g3.trans s3,
      fun h => g4 (s4 h), fun h => g5 (s5 h), fun h => g6 (s6 h)⟩

theorem fitFold_init_ne_nil (corpus : List (List (String × String))) :
    ∀ m : MarkovChain, (∃ s ∈ corpus, s.length > m.order + 1) →
    (corpus.foldl MarkovChain.fitSentence m).init_vector ≠ [] := by
  induction corpus with
  | nil => intro m h; simp at h
  | cons s rest ih =>
    intro m ⟨s0, hs0, hlen⟩
    rcases List.mem_cons.mp hs0 with heq | hmem
    · have hne : (m.fitSentence s).init_vector ≠ [] :=
        (fitSentence_props m s).2.2.2.2.2.2 (heq ▸ hlen)
      exact ((fitFold_props rest (m.fitSentence s)).2.2.2.2.1) hne
    · refine ih (m.fitSentence s) ⟨s0, hmem, ?_⟩
      rw [(fitSentence_props m s).1]
      exact hlen

/-- Claim C7: the normalization law.  Fitting a fresh chain model on a
corpus containing at least one sentence longer than order+1 leaves the
initial distribution summing to exactly 1 and every row of the transition
table summing to exactly 1 (rational arithmetic). -/
theorem fit_normalization_law (order : Nat) (corpus : List (List (String × String)))
    (h : ∃ s ∈ corpus, s.length > order + 1) :
    sumV ((MarkovChain.new order).fit corpus).init_vector = 1
    ∧ ∀ r ∈ ((MarkovChain.new order).fit corpus).transition, sumV r.2 = 1 := by
  obtain ⟨f1, f2, f3, f4, f5, f6⟩ := fitFold_props corpus (MarkovChain.new order)
  have hpos : ∀ e ∈ (corpus.foldl MarkovChain.fitSentence (MarkovChain.new order)).init_vector,
      0 < e.2 := f4 (by intro e he; simp [MarkovChain.new] at he)
  have hne : (corpus.foldl MarkovChain.fitSentence (MarkovChain.new order)).init_vector ≠ [] :=
    fitFold_init_ne_nil corpus (MarkovChain.new order) h
  have hrows : rowsOK (corpus.foldl MarkovChain.fitSentence (MarkovChain.new order)).transition :=
    f6 (by intro r hr; simp [MarkovChain.new] at hr)
  have hflag : (corpus.foldl MarkovChain.fitSentence (MarkovChain.new order)).normalized_transition
      = false := f3
  unfold MarkovChain.fit MarkovChain.normalize_init_vector MarkovChain.normalize_transition_matrix
  rw [if_pos hflag]
  simp only []
  rw [if_pos hflag]
  constructor
  · exact sumV_normRow _ (sumV_pos _ hne hpos)
  · intro r hr
    simp only [List.mem_map] at hr
    obtain ⟨e0, he0, hre⟩ := hr
    obtain ⟨hene, hepos⟩ := hrows e0 he0
    rw [← hre]
    exact sumV_normRow _ (sumV_pos _ hene hepos)

/-- Witness for C7 on the four-token example corpus. -/
theorem fit_normalization_law_witness :
    (∃ s ∈ [[("the", "DT"), ("dog", "NN"), ("runs", "VBZ"), ("fast", "RB")]],
      s.length > 1 + 1)
    ∧ (sumV ((MarkovChain.new 1).fit
        [[("the", "DT"), ("dog", "NN"), ("runs", "VBZ"), ("fast", "RB")]]).init_vector = 1
      ∧ ∀ r ∈ ((MarkovChain.new 1).fit
          [[("the", "DT"), ("dog", "NN"), ("runs", "VBZ"), ("fast", "RB")]]).transition,
          sumV r.2 = 1) :=
  ⟨by decide, fit_normalization_law 1
    [[("the", "DT"), ("dog", "NN"), ("runs", "VBZ"), ("fast", "RB")]] (by decide)⟩

theorem get?_eq_some_getD {α : Type} (l : List α) (d : α) :
    ∀ i, i < l.length → l.get? i = some (l.getD i d) := by
  induction l with
  | nil => intro i h; simp at h
  | cons x rest ih =>
    intro i h
    cases i with
    | zero => rfl
    | succ j =>
      simp only [List.length_cons, Nat.succ_lt_succ_iff] at h
      simpa using ih j h

theorem getD_mem {α : Type} (l : List α) (d : α) (i : Nat) (h : i < l.length) :
    l.getD i d ∈ l :=
  List.get?_mem (get?_eq_some_getD l d i h)

theorem pyGet_nat {α : Type} (l : List α) (i : Nat) : pyGet l (i : Int) = l.get? i := by
  unfold pyGet
  rw [if_pos (by omega)]
  simp

theorem pyGet_pred {α : Type} (l : List α) (i : Nat) (h : 1 ≤ i) :
    pyGet l ((i : Int) - 1) = l.get? (i - 1) := by
  have : (i : Int) - 1 = ((i - 1 : Nat) : Int) := by omega
  rw [this, pyGet_nat]

theorem pyGet_neg_one {α : Type} (l : List α) (h : l ≠ []) :
    pyGet l ((0 : Int) - 1) = l.get? (l.length - 1) := by
  have hlen : 1 ≤ l.length := List.length_pos.mpr h
  unfold pyGet
  rw [if_neg (by omega), if_pos (by omega)]
  rfl

theorem pyGet_succ {α : Type} (l : List α) (i : Nat) :
    pyGet l ((i : Int) + 1) = l.get? (i + 1) := by
  have : (i : Int) + 1 = ((i + 1 : Nat) : Int) := by omega
  rw [this, pyGet_nat]

theorem string_data_ne_nil (p : String) (h : p ≠ "") : p.data ≠ [] := by
  intro hd
  apply h
  cases p with
  | mk cs =>
    simp only [String.data] at hd
    rw [hd]

theorem vfLoop_ok (s : List (String × String)) (hs : ∀ e ∈ s, e.2 ≠ "") :
    ∀ (l : List Nat), (∀ ix ∈ l, ix < s.length) → ∀ acc,
    vfLoop s l acc = .ok (acc ++ l.filterMap fun ix =>
      if headIsV (s.getD ix ("", "")).2 ∧ ix + 1 < s.length then
        some [s.getD (if ix = 0 then s.length - 1 else ix - 1) ("", ""),
          s.getD ix ("", ""), s.getD (ix + 1) ("", "")]
      else none) := by
  intro l
  induction l with
  | nil => intro _ acc; simp [vfLoop]
  | cons ix rest ih =>
    intro hl acc
    have hix : ix < s.length := hl ix (List.mem_cons_self ix rest)
    have hrest : ∀ i ∈ rest, i < s.length := fun i hi => hl i (List.mem_cons_of_mem ix hi)
    have hsne : s ≠ [] := by
      intro h0
      rw [h0] at hix
      simp at hix
    have htag : (s.getD ix ("", "")).2 ≠ "" := hs _ (getD_mem s ("", "") ix hix)
    obtain ⟨c, cs, hdata⟩ : ∃ c cs, (s.getD ix ("", "")).2.data = c :: cs := by
      cases hd : (s.getD ix ("", "")).2.data with
      | nil => exact absurd hd (string_data_ne_nil _ htag)
      | cons c cs => exact ⟨c, cs, rfl⟩
    simp only [vfLoop]
    rw [hdata]
    simp only []
    by_cases hv : c = 'V'
    · rw [if_pos hv]
      have hB : headIsV (s.getD ix ("", "")).2 = true := by
        unfold headIsV
        rw [hdata]
        simp [hv]
      have hmid : pyGet s (ix : Int) = some (s.getD ix ("", "")) := by
        rw [pyGet_nat]
        exact get?_eq_some_getD s ("", "") ix hix
      by_cases hlast : ix + 1 < s.length
      · have hnxt : pyGet s ((ix : Int) + 1) = some (s.getD (ix + 1) ("", "")) := by
          rw [pyGet_succ]
          exact get?_eq_some_getD s ("", "") (ix + 1) hlast
        have hleft : pyGet s ((ix : Int) - 1)
            = some (s.getD (if ix = 0 then s.length - 1 else ix - 1) ("", "")) := by
          by_cases h0 : ix = 0
          · subst h0
            rw [if_pos rfl]
            have := pyGet_neg_one s hsne
            simp only [Nat.cast_zero] at this ⊢
            rw [this]
            exact get?_eq_some_getD s ("", "") (s.length - 1)
              (by have := List.length_pos.mpr hsne; omega)
          · rw [if_neg h0, pyGet_pred s ix (by omega)]
            exact get?_eq_some_getD s ("", "") (ix - 1) (by omega)
        rw [hleft, hmid, hnxt]
        simp only []
        rw [ih hrest, List.filterMap_cons]
        rw [if_pos (show headIsV (s.getD ix ("", "")).2 = true ∧ ix + 1 < s.length from
          ⟨hB, hlast⟩)]
        simp only [List.append_assoc, List.singleton_append]
      · have hnxt : pyGet s ((ix : Int) + 1) = none := by
          rw [pyGet_succ]
          exact List.get?_eq_none.mpr (by omega)
        rw [hnxt, hmid]
        cases hleft : pyGet s ((ix : Int) - 1) with
        | none =>
          simp only []
          rw [ih hrest]
          simp [List.filterMap_cons, hlast]
        | some a =>
          simp only []
          rw [ih hrest]
          simp [List.filterMap_cons, hlast]
    · rw [if_neg hv]
      have hB : headIsV (s.getD ix ("", "")).2 = false := by
        unfold headIsV
        rw [hdata]
        simp [hv]
      rw [ih hrest, List.filterMap_cons]
      have hcond : ¬(headIsV (s.getD ix ("", "")).2 = true ∧ ix + 1 < s.length) := by
        intro hco
        rw [hB] at hco
        exact Bool.false_ne_true hco.1
      rw [if_neg hcond]

theorem vfAll_ok (pos : List (List (String × String)))
    (h : ∀ s ∈ pos, ∀ e ∈ s, e.2 ≠ "") :
    ∀ acc, vfAll pos acc = .ok (acc ++ verbTriples pos) := by
  induction pos with
  | nil => intro acc; simp [vfAll, verbTriples]
  | cons s rest ih =>
    intro acc
    have hsent := vfLoop_ok s (h s (List.mem_cons_self s rest)) (List.range s.length)
      (fun ix hix => List.mem_range.mp hix) acc
    rw [vfAll, hsent]
    simp only []
    rw [ih (fun s2 hs2 => h s2 (List.mem_cons_of_mem s hs2))]
    simp [verbTriples, List.append_assoc]

/-- Claim C4 (amended): on a corpus whose tags are all non-empty,
`verb_filter` returns exactly, in corpus order, one triple per verb-tagged
position that has a right neighbour; the left element of the triple is the
previous token, except at position 0 where it wraps around to the
sentence's last token (Python `pos[-1]`). -/
theorem verb_filter_amended (pos : List (List (String × String)))
    (h : ∀ s ∈ pos, ∀ e ∈ s, e.2 ≠ "") :
    verb_filter pos = .ok (verbTriples pos) := by
  unfold verb_filter
  rw [vfAll_ok pos h []]
  rfl

/-- Witness for the amended C4, exercising an interior verb, a verb at
position 0 (wrap-around) and a verb at the last position (skipped). -/
theorem verb_filter_amended_witness :
    (∀ s ∈ [[("the", "DT"), ("runs", "VBZ"), ("dog", "NN")],
        [("run", "VB"), ("dog", "NN")], [("sleeps", "VBZ")]], ∀ e ∈ s, e.2 ≠ "")
    ∧ verb_filter [[("the", "DT"), ("runs", "VBZ"), ("dog", "NN")],
        [("run", "VB"), ("dog", "NN")], [("sleeps", "VBZ")]]
      = .ok (verbTriples [[("the", "DT"), ("runs", "VBZ"), ("dog", "NN")],
        [("run", "VB"), ("dog", "NN")], [("sleeps", "VBZ")]]) :=
  ⟨by decide, verb_filter_amended [[("the", "DT"), ("runs", "VBZ"), ("dog", "NN")],
    [("run", "VB"), ("dog", "NN")], [("sleeps", "VBZ")]] (by decide)⟩

theorem dfind?_map_pairs {α : Type} (ks : List String) (g : String → α) (k0 : String)
    (h : k0 ∈ ks) : dfind? (ks.map fun x => (x, g x)) k0 = some (g k0) := by
  induction ks with
  | nil => simp at h
  | cons x rest ih =>
    rcases List.mem_cons.mp h with h1 | h2
    · subst h1
      simp [dfind?, List.find?]
    · by_cases hx : x = k0
      · subst hx
        simp [dfind?, List.find?]
      · have := ih h2
        simp only [List.map_cons, dfind?, List.find?] at this ⊢
        rw [show (x == k0) = false from beq_eq_false_iff_ne.mpr hx]
        exact this

theorem dfind?_mapval {α β : Type} (l : Dict α) (g : α → β) (k : String) :
    dfind? (l.map fun e => (e.1, g e.2)) k = (dfind? l k).map g := by
  induction l with
  | nil => rfl
  | cons e rest ih =>
    simp only [List.map_cons, dfind?, List.find?] at ih ⊢
    cases hb : (e.1 == k) with
    | true => rfl
    | false => exact ih

theorem map_fst_map_pairs {α : Type} (ks : List String) (g : String → α) :
    ((ks.map fun x => (x, g x)).map fun e => e.1) = ks := by
  induction ks with
  | nil => rfl
  | cons x rest ih => simp only [List.map_cons, ih]

theorem fibers_find (f : String → String) (t : Dict ℚ) (k0 : String)
    (h : k0 ∈ t.map fun e => e.1) :
    dfind? (fibers f t) (f k0)
      = some (sumV (t.filter fun e => decide (f e.1 = f k0))) := by
  unfold fibers
  apply dfind?_map_pairs
  rw [List.mem_dedup, List.mem_map]
  obtain ⟨e, he, hek⟩ := List.mem_map.mp h
  exact ⟨e, he, by rw [hek]⟩

theorem sumV_filter_add (l : Dict ℚ) (p : String × ℚ → Bool) :
    sumV (l.filter p) + sumV (l.filter fun e => !p e) = sumV l := by
  induction l with
  | nil => simp [sumV]
  | cons e rest ih =>
    cases hp : p e with
    | true =>
      simp [List.filter_cons, hp, sumV] at ih ⊢
      linarith
    | false =>
      simp [List.filter_cons, hp, sumV] at ih ⊢
      linarith

theorem sum_fiberwise (f : String → String) : ∀ (ks : List String), ks.Nodup →
    ∀ (l : Dict ℚ), (∀ e ∈ l, f e.1 ∈ ks) →
    (ks.map fun kk => sumV (l.filter fun e => decide (f e.1 = kk))).sum = sumV l := by
  intro ks
  induction ks with
  | nil =>
    intro _ l hcov
    cases l with
    | nil => simp [sumV]
    | cons e rest => exact absurd (hcov e (List.mem_cons_self e rest)) (List.not_mem_nil _)
  | cons kk ks ih =>
    intro hnd l hcov
    have hnd2 : ks.Nodup := (List.nodup_cons.mp hnd).2
    have hkk : kk ∉ ks := (List.nodup_cons.mp hnd).1
    simp only [List.map_cons, List.sum_cons]
    have hcov2 : ∀ e ∈ l.filter fun e => !decide (f e.1 = kk), f e.1 ∈ ks := by
      intro e he
      have hmem := List.mem_filter.mp he
      have h1 := hcov e hmem.1
      have h2 : ¬(f e.1 = kk) := by simpa using hmem.2
      rcases List.mem_cons.mp h1 with h3 | h4
      · exact absurd h3 h2
      · exact h4
    have htail : ∀ k2 ∈ ks,
        ((l.filter fun e => !decide (f e.1 = kk)).filter fun e => decide (f e.1 = k2))
          = l.filter fun e => decide (f e.1 = k2) := by
      intro k2 hk2
      rw [List.filter_filter]
      apply List.filter_congr
      intro e _
      by_cases hfe : f e.1 = k2
      · have hne : ¬(f e.1 = kk) := by
          rw [hfe]
          intro hcon
          exact hkk (hcon ▸ hk2)
        have hd1 : decide (f e.1 = k2) = true := decide_eq_true hfe
        have hd2 : decide (f e.1 = kk) = false := decide_eq_false hne
        simp [hd1, hd2]
      · have hd1 : decide (f e.1 = k2) = false := decide_eq_false hfe
        simp [hd1]
    have hmaps : (ks.map fun k2 => sumV (l.filter fun e => decide (f e.1 = k2)))
        = ks.map fun k2 =>
            sumV ((l.filter fun e => !decide (f e.1 = kk)).filter fun e => decide (f e.1 = k2)) := by
      apply List.map_congr_left
      intro k2 hk2
      rw [htail k2 hk2]
    rw [hmaps, ih hnd2 _ hcov2]
    exact sumV_filter_add l fun e => decide (f e.1 = kk)

theorem sumV_fibers (f : String → String) (t : Dict ℚ) : sumV (fibers f t) = sumV t := by
  unfold fibers
  have hmm : sumV (((t.map fun e => f e.1).dedup).map fun k =>
        (k, sumV (t.filter fun e => decide (f e.1 = k))))
      = (((t.map fun e => f e.1).dedup).map fun k =>
          sumV (t.filter fun e => decide (f e.1 = k))).sum := by
    unfold sumV
    rw [List.map_map]
    rfl
  rw [hmm]
  apply sum_fiberwise f _ (List.nodup_dedup _) t
  intro e he
  rw [List.mem_dedup]
  exact List.mem_map.mpr ⟨e, he, rfl⟩

theorem dfind?_nodup_filter_sum (l : Dict ℚ) (k : String) (c : ℚ)
    (hnd : (l.map fun e => e.1).Nodup) (h : dfind? l k = some c) :
    sumV (l.filter fun e => decide (e.1 = k)) = c := by
  induction l with
  | nil => simp [dfind?] at h
  | cons e rest ih =>
    simp only [List.map_cons, List.nodup_cons] at hnd
    by_cases hek : e.1 = k
    · have hc : e.2 = c := by
        unfold dfind? at h
        rw [List.find?_cons_of_pos _ (by simpa using hek)] at h
        simpa using h
      have hrest : (rest.filter fun e2 => decide (e2.1 = k)) = [] := by
        rw [List.filter_eq_nil]
        intro e2 he2
        simp only [decide_eq_true_eq]
        intro hco
        exact hnd.1 (List.mem_map.mpr ⟨e2, he2, by rw [hco, hek]⟩)
      rw [List.filter_cons, if_pos (by simpa using hek), hrest]
      simp [sumV, hc]
    · unfold dfind? at h
      rw [List.find?_cons_of_neg _ (by simpa using hek)] at h
      rw [List.filter_cons, if_neg (by simpa using hek)]
      exact ih hnd.2 h

/-- Claim C5: Bayes consistency of the co-occurrence model.  For any
count table with positive counts, no duplicate keys, and triple keys
determined by their split components (true of every table `NGrams.fit`
builds from `**`-free tags), `normalize_transition_matrix` makes
`p_z_given_x_y[x**y][z] * p_x_y[x**y]` equal the normalized joint entry
`transition[x**z**y]`, the raw count divided by the grand total, exactly
in rational arithmetic. -/
theorem ngrams_bayes_consistency (m : NGrams) (k : String) (c : ℚ)
    (hflag : m.normalized_transition = false)
    (hv : ∀ e ∈ m.transition, 0 < e.2)
    (hnd : (m.transition.map fun e => e.1).Nodup)
    (hinj : ∀ k1 ∈ m.transition.map fun e => e.1, ∀ k2 ∈ m.transition.map fun e => e.1,
        xyOf k1 = xyOf k2 → midOf k1 = midOf k2 → k1 = k2)
    (hk : dfind? m.transition k = some c) :
    ∃ pzg pxy row a b,
      m.normalize_transition_matrix.p_z_given_x_y = some pzg
      ∧ m.normalize_transition_matrix.p_x_y = some pxy
      ∧ dfind? pzg (xyOf k) = some row
      ∧ dfind? row (midOf k) = some a
      ∧ dfind? pxy (xyOf k) = some b
      ∧ a * b = c / sumV m.transition
      ∧ dfind? m.normalize_transition_matrix.transition k = some (c / sumV m.transition) := by
  have hzg : m.normalize_transition_matrix.p_z_given_x_y
      = some (((fibers xyOf m.transition).map fun e => e.1).map fun xy2 =>
          (xy2, normRow (fibers midOf (m.transition.filter fun e => decide (xyOf e.1 = xy2))))) := by
    unfold NGrams.normalize_transition_matrix
    rw [if_pos hflag]
  have hpxy : m.normalize_transition_matrix.p_x_y
      = some ((fibers xyOf m.transition).map fun e => (e.1, e.2 / sumV m.transition)) := by
    unfold NGrams.normalize_transition_matrix
    rw [if_pos hflag]
  have htrans : m.normalize_transition_matrix.transition
      = m.transition.map fun e => (e.1, e.2 / sumV m.transition) := by
    unfold NGrams.normalize_transition_matrix
    rw [if_pos hflag]
  obtain ⟨e0, he0, he0k, he0c⟩ := dfind?_mem m.transition k c hk
  have hkmem : k ∈ m.transition.map fun e => e.1 := List.mem_map.mpr ⟨e0, he0, he0k⟩
  have he0fil : e0 ∈ m.transition.filter fun e => decide (xyOf e.1 = xyOf k) :=
    List.mem_filter.mpr ⟨he0, by rw [he0k]; simp⟩
  have hkfil : k ∈ (m.transition.filter fun e => decide (xyOf e.1 = xyOf k)).map fun e => e.1 :=
    List.mem_map.mpr ⟨e0, he0fil, he0k⟩
  have hBpos : 0 < sumV (m.transition.filter fun e => decide (xyOf e.1 = xyOf k)) := by
    apply sumV_pos
    · exact List.ne_nil_of_mem he0fil
    · intro e he
      exact hv e (List.mem_filter.mp he).1
  have hSc : sumV ((m.transition.filter fun e => decide (xyOf e.1 = xyOf k)).filter
      fun e => decide (midOf e.1 = midOf k)) = c := by
    rw [List.filter_filter]
    have hcong : (m.transition.filter
          fun e => decide (midOf e.1 = midOf k) && decide (xyOf e.1 = xyOf k))
        = m.transition.filter fun e => decide (e.1 = k) := by
      apply List.filter_congr
      intro e he
      by_cases h1 : e.1 = k
      · simp [h1]
      · have hmemE : e.1 ∈ m.transition.map fun e2 => e2.1 := List.mem_map.mpr ⟨e, he, rfl⟩
        have hno : ¬(xyOf e.1 = xyOf k ∧ midOf e.1 = midOf k) := by
          intro hco
          exact h1 (hinj e.1 hmemE k hkmem hco.1 hco.2)
        rcases not_and_or.mp hno with hA | hB2
        · simp [decide_eq_false hA, decide_eq_false h1]
        · simp [decide_eq_false hB2, decide_eq_false h1]
    rw [hcong]
    exact dfind?_nodup_filter_sum m.transition k c hnd hk
  have hinner_find : dfind? (fibers midOf (m.transition.filter
      fun e => decide (xyOf e.1 = xyOf k))) (midOf k) = some c := by
    rw [fibers_find midOf (m.transition.filter fun e => decide (xyOf e.1 = xyOf k)) k hkfil]
    rw [hSc]
  have hinner_sum : sumV (fibers midOf (m.transition.filter
      fun e => decide (xyOf e.1 = xyOf k)))
      = sumV (m.transition.filter fun e => decide (xyOf e.1 = xyOf k)) :=
    sumV_fibers midOf _
  have hrow : dfind? (normRow (fibers midOf (m.transition.filter
      fun e => decide (xyOf e.1 = xyOf k)))) (midOf k)
      = some (c / sumV (m.transition.filter fun e => decide (xyOf e.1 = xyOf k))) := by
    unfold normRow
    rw [dfind?_mapval (fibers midOf (m.transition.filter fun e => decide (xyOf e.1 = xyOf k)))
      (fun v => v / sumV (fibers midOf (m.transition.filter
        fun e => decide (xyOf e.1 = xyOf k)))) (midOf k)]
    rw [hinner_find, hinner_sum]
    rfl
  have hpxyB : dfind? (fibers xyOf m.transition) (xyOf k)
      = some (sumV (m.transition.filter fun e => decide (xyOf e.1 = xyOf k))) :=
    fibers_find xyOf m.transition k hkmem
  have hb : dfind? ((fibers xyOf m.transition).map fun e => (e.1, e.2 / sumV m.transition))
      (xyOf k)
      = some ((sumV (m.transition.filter fun e => decide (xyOf e.1 = xyOf k)))
          / sumV m.transition) := by
    rw [dfind?_mapval (fibers xyOf m.transition) (fun v => v / sumV m.transition) (xyOf k)]
    rw [hpxyB]
    rfl
  have hxymem : xyOf k ∈ (fibers xyOf m.transition).map fun e => e.1 := by
    unfold fibers
    rw [map_fst_map_pairs, List.mem_dedup]
    exact List.mem_map.mpr ⟨e0, he0, by rw [he0k]⟩
  have hpzg_find : dfind? (((fibers xyOf m.transition).map fun e => e.1).map fun xy2 =>
        (xy2, normRow (fibers midOf (m.transition.filter fun e => decide (xyOf e.1 = xy2)))))
      (xyOf k)
      = some (normRow (fibers midOf (m.transition.filter
          fun e => decide (xyOf e.1 = xyOf k)))) :=
    dfind?_map_pairs _ _ _ hxymem
  have htlook : dfind? (m.transition.map fun e => (e.1, e.2 / sumV m.transition)) k
      = some (c / sumV m.transition) := by
    rw [dfind?_mapval m.transition (fun v => v / sumV m.transition) k, hk]
    rfl
  refine ⟨_, _, _, _, _, hzg, hpxy, hpzg_find, hrow, hb, ?_, ?_⟩
  · rw [div_mul_div_comm,
      mul_comm c (sumV (m.transition.filter fun e => decide (xyOf e.1 = xyOf k))),
      mul_div_mul_left c (sumV m.transition) (ne_of_gt hBpos)]
  · rw [htrans]
    exact htlook

/-- Witness for C5 on the four-token example corpus, at the observed
triple key `DT**NN**VBZ` with count 1 (grand total 2). -/
theorem ngrams_bayes_consistency_witness :
    (((NGrams.new 1).fit
        [[("the", "DT"), ("dog", "NN"), ("runs", "VBZ"), ("fast", "RB")]]).normalized_transition
        = false
      ∧ (∀ e ∈ ((NGrams.new 1).fit
          [[("the", "DT"), ("dog", "NN"), ("runs", "VBZ"), ("fast", "RB")]]).transition, 0 < e.2)
      ∧ ((((NGrams.new 1).fit
          [[("the", "DT"), ("dog", "NN"), ("runs", "VBZ"), ("fast", "RB")]]).transition.map
          fun e => e.1).Nodup)
      ∧ dfind? ((NGrams.new 1).fit
          [[("the", "DT"), ("dog", "NN"), ("runs", "VBZ"), ("fast", "RB")]]).transition
          "DT**NN**VBZ" = some 1)
    ∧ ∃ pzg pxy row a b,
      ((NGrams.new 1).fit
        [[("the", "DT"), ("dog", "NN"), ("runs", "VBZ"), ("fast", "RB")]]).normalize_transition_matrix.p_z_given_x_y
        = some pzg
      ∧ ((NGrams.new 1).fit
        [[("the", "DT"), ("dog", "NN"), ("runs", "VBZ"), ("fast", "RB")]]).normalize_transition_matrix.p_x_y
        = some pxy
      ∧ dfind? pzg (xyOf "DT**NN**VBZ") = some row
      ∧ dfind? row (midOf "DT**NN**VBZ") = some a
      ∧ dfind? pxy (xyOf "DT**NN**VBZ") = some b
      ∧ a * b = 1 / sumV ((NGrams.new 1).fit
          [[("the", "DT"), ("dog", "NN"), ("runs", "VBZ"), ("fast", "RB")]]).transition
      ∧ dfind? ((NGrams.new 1).fit
          [[("the", "DT"), ("dog", "NN"), ("runs", "VBZ"), ("fast", "RB")]]).normalize_transition_matrix.transition
          "DT**NN**VBZ"
        = some (1 / sumV ((NGrams.new 1).fit
            [[("the", "DT"), ("dog", "NN"), ("runs", "VBZ"), ("fast", "RB")]]).transition) :=
  ⟨⟨by decide, by with_unfolding_all decide, by decide, by with_unfolding_all decide⟩,
    ngrams_bayes_consistency
      ((NGrams.new 1).fit [[("the", "DT"), ("dog", "NN"), ("runs", "VBZ"), ("fast", "RB")]])
      "DT**NN**VBZ" 1 (by decide) (by with_unfolding_all decide) (by decide)
      (by with_unfolding_all decide) (by with_unfolding_all decide)⟩
